import Mathlib

/-!
Verification development for the PS2 renderer's model registry and BSP data
model (`src/ps2/model.h` of quake2-for-ps2).

The repository file under verification is a header: it declares the record
types (vertices, edges, planes, texinfo, polygons, surfaces, BSP nodes and
leafs, the whole-model aggregate) and the public registry API
(`PS2_ModelInit`, `PS2_ModelAlloc`, `PS2_ModelFindOrLoad`,
`PS2_ModelLoadWorld`, `PS2_ModelFree`).  The record types are embedded
faithfully from the header (C pointers become indices into the owning
model's arrays, pointer+count pairs become lists whose length is the
count, floats become exact rationals, fixed-width integers become
`Nat`/`Int` with explicit wrap-around where overflow matters).  The
function bodies live in a translation unit that is not part of the
repository snapshot, so every behavioural definition below is modelled
from the specification's contracts and carries a doc comment saying so.
-/

/-! ### Enum constants (model.h, lines 19-35) -/

/-- Plane side classification result: point in front of the plane. -/
def SIDE_FRONT : Nat := 0

/-- Plane side classification result: point behind the plane. -/
def SIDE_BACK : Nat := 1

/-- Plane side classification result: point on (within epsilon of) the plane. -/
def SIDE_ON : Nat := 2

/-- Surface flag: plane faces backwards. -/
def SURF_PLANEBACK : Nat := 2

/-- Surface flag: sky surface. -/
def SURF_DRAWSKY : Nat := 4

/-- Surface flag: turbulent (water) surface. -/
def SURF_DRAWTURB : Nat := 16

/-- Surface flag: background surface. -/
def SURF_DRAWBACKGROUND : Nat := 64

/-- Surface flag: underwater surface. -/
def SURF_UNDERWATER : Nat := 128

/-- Number of elements in the poly vertex (xyz s1t1 s2t2). -/
def POLY_VERTEX_SIZE : Nat := 7

/-- Model type flag `MDL_BRUSH = (1 << 1)` (model.h line 187). -/
def MDL_BRUSH : Nat := 2

/-- Model type flag `MDL_SPRITE = (1 << 2)` (model.h line 188). -/
def MDL_SPRITE : Nat := 4

/-- Model type flag `MDL_ENTITY = (1 << 3)` (model.h line 189). -/
def MDL_ENTITY : Nat := 8

/-! ### Geometry primitives -/

/-- A 3D vector (`vec3_t`); float components are embedded as exact rationals. -/
structure vec3_t where
  x : Rat
  y : Rat
  z : Rat
deriving DecidableEq, Repr

/-- A 4-component texture-basis row (one row of `float vecs[2][4]`). -/
structure vec4_t where
  x : Rat
  y : Rat
  z : Rat
  w : Rat
deriving DecidableEq, Repr

/-- Dot product of two 3D vectors. -/
def dot3 (a b : vec3_t) : Rat :=
  a.x * b.x + a.y * b.y + a.z * b.z

/-- The xyz part of a texture-basis row. -/
def vec4_t.xyz (v : vec4_t) : vec3_t :=
  { x := v.x, y := v.y, z := v.z }

/-- A splitting plane (`cplane_t`, declared in ref_ps2.h / q_shared.h, not in
this snapshot): an infinite half-space divider given by a normal and a
distance, per the spec's Plane description. -/
structure cplane_t where
  normal : vec3_t
  dist : Rat
deriving DecidableEq, Repr

/-- Model vertex position (`ps2_mdl_vertex_t`, model.h lines 48-51). -/
structure ps2_mdl_vertex_t where
  position : vec3_t
deriving DecidableEq, Repr

/-- Sub-model mesh data (`ps2_mdl_sub_t`, model.h lines 56-66). -/
structure ps2_mdl_sub_t where
  mins : vec3_t
  maxs : vec3_t
  origin : vec3_t
  radius : Rat
  head_node : Int
  vis_leafs : Int
  first_face : Int
  num_faces : Int
deriving DecidableEq, Repr

/-- Edge description (`ps2_mdl_edge_t`, model.h lines 71-75): the two `u16`
vertex numbers `v[0]`,`v[1]` become `v0`,`v1`. -/
structure ps2_mdl_edge_t where
  v0 : Nat
  v1 : Nat
  cached_edge_offset : Nat
deriving DecidableEq, Repr

/-- Texture/material description (`ps2_mdl_texinfo_t`, model.h lines 80-87).
`vecs[2][4]` becomes `vecs0`/`vecs1`; the `teximage` pointer and the `next`
animation-chain pointer become optional indices. -/
structure ps2_mdl_texinfo_t where
  vecs0 : vec4_t
  vecs1 : vec4_t
  flags : Int
  num_frames : Int
  teximage : Option Nat
  next : Option Nat
deriving DecidableEq, Repr

/-- One vertex of a built polygon: position plus two texture-coordinate
pairs, the `POLY_VERTEX_SIZE = 7` floats `xyz s1t1 s2t2` of
`ps2_mdl_poly_t.verts` (model.h line 99). -/
structure ps2_poly_vert_t where
  pos : vec3_t
  s1 : Rat
  t1 : Rat
  s2 : Rat
  t2 : Rat
deriving DecidableEq, Repr

/-- Model polygon/face (`ps2_mdl_poly_t`, model.h lines 93-100).  The two
intrusive list pointers become optional indices; the variable-sized
`verts[4][POLY_VERTEX_SIZE]` array becomes a list of 7-float vertices. -/
structure ps2_mdl_poly_t where
  next : Option Nat
  chain : Option Nat
  flags : Int
  num_verts : Int
  verts : List ps2_poly_vert_t
deriving DecidableEq, Repr

/-- Surface description (`ps2_mdl_surface_t`, model.h lines 106-136).
Pointers into the owning model's arrays (`plane`, `polys`, the chain
pointers, `texinfo`) become indices/optional indices; `s16`/`byte` fields
become `Int`/`Nat`. -/
structure ps2_mdl_surface_t where
  vis_frame : Int
  plane : Nat
  flags : Int
  first_edge : Int
  num_edges : Int
  texture_mins : Int × Int
  extents : Int × Int
  light_s : Int
  light_t : Int
  dlight_s : Int
  dlight_t : Int
  polys : Option Nat
  texture_chain : Option Nat
  lightmap_chain : Option Nat
  texinfo : Nat
  dlight_frame : Int
  dlight_bits : Int
  lightmap_texture_num : Int
  styles : List Nat
  cached_light : List Rat
  samples : List Nat
deriving DecidableEq, Repr

/-- BSP world node record (`ps2_mdl_node_t`, model.h lines 141-158).  The two
child pointers become signed indices as in the BSP format the pointers are
rebuilt from (a negative child `c` designates leaf `-(c+1)`). -/
structure ps2_mdl_node_t where
  contents : Int
  vis_frame : Int
  minmaxs : List Rat
  parent : Option Nat
  plane : Nat
  children : Int × Int
  first_surface : Nat
  num_surfaces : Nat
deriving DecidableEq, Repr

/-- Special BSP leaf node record (`ps2_mdl_leaf_t`, model.h lines 163-180).
`first_mark_surface` points into the model's `mark_surfaces` array and
becomes an index. -/
structure ps2_mdl_leaf_t where
  contents : Int
  vis_frame : Int
  minmaxs : List Rat
  parent : Option Nat
  cluster : Int
  area : Int
  first_mark_surface : Nat
  num_mark_surfaces : Int
deriving DecidableEq, Repr

/-- Per-model memory hunk (`mem_hunk_t`, declared outside this header):
a bump allocator with a fixed capacity and a high-water mark, per the
spec's Arena contract. -/
structure mem_hunk_t where
  capacity : Nat
  used : Nat
deriving DecidableEq, Repr

/-- Whole model, world or entity/sprite (`ps2_model_t`, model.h lines
200-269).  Every pointer+count pair of the C struct becomes one list whose
length is the count (the `num_*` accessors below recover the counts); the
`ps2_mdl_type_t` field is kept as its numeric flag value. -/
structure ps2_model_t where
  type : Nat
  num_frames : Int
  flags : Int
  mins : vec3_t
  maxs : vec3_t
  radius : Rat
  clipbox : Bool
  clipmins : vec3_t
  clipmaxs : vec3_t
  first_model_surface : Int
  num_model_surfaces : Int
  lightmap : Int
  submodels : List ps2_mdl_sub_t
  planes : List cplane_t
  leafs : List ps2_mdl_leaf_t
  vertexes : List ps2_mdl_vertex_t
  edges : List ps2_mdl_edge_t
  first_node : Int
  nodes : List ps2_mdl_node_t
  texinfos : List ps2_mdl_texinfo_t
  surfaces : List ps2_mdl_surface_t
  surf_edges : List Int
  mark_surfaces : List Nat
  light_data : List Nat
  skins : List (Option Nat)
  registration_sequence : Int
  hunk : mem_hunk_t
  hash : Nat
  name : String
deriving DecidableEq, Repr

/-- `num_surf_edges` of a model: the length of its surf-edge index array. -/
def ps2_model_t.num_surf_edges (m : ps2_model_t) : Int :=
  (m.surf_edges.length : Int)

/-- `num_edges` of a model: the length of its edge array. -/
def ps2_model_t.num_edges (m : ps2_model_t) : Int :=
  (m.edges.length : Int)

/-- `num_vertexes` of a model: the length of its vertex array. -/
def ps2_model_t.num_vertexes (m : ps2_model_t) : Int :=
  (m.vertexes.length : Int)

/-- `num_surfaces` of a model: the length of its surface array. -/
def ps2_model_t.num_surfaces (m : ps2_model_t) : Int :=
  (m.surfaces.length : Int)

/-! ### Plane-side classification -/

/-- Signed distance from a point to a plane: `dot(normal, point) - dist`. -/
def signedDist (p : cplane_t) (pt : vec3_t) : Rat :=
  dot3 p.normal pt - p.dist

/-- The numeric tolerance band half-width around a plane (Quake's
`ON_EPSILON` of 0.1, as an exact rational). -/
def ON_EPSILON : Rat := 1 / 10

/-- Modelled from the spec: the plane-side classification
`classify(plane, point) -> {FRONT, BACK, ON}` of section 4.2; the function
itself lives in a translation unit not in this snapshot, only its result
constants `SIDE_FRONT`/`SIDE_BACK`/`SIDE_ON` are declared in model.h.
`ON` when the signed distance is within epsilon of zero, `FRONT` above the
band, `BACK` below it. -/
def classify (p : cplane_t) (pt : vec3_t) : Nat :=
  let d := signedDist p pt
  if ON_EPSILON < d then SIDE_FRONT
  else if d < -ON_EPSILON then SIDE_BACK
  else SIDE_ON

/-! ### The BSP tree as a tagged variant

The header shares a layout prefix between `ps2_mdl_node_t` and
`ps2_mdl_leaf_t` so traversal code can inspect `contents` through either
pointer before committing to a node or leaf view.  Layout punning has no
shallow embedding; the spec's design notes prescribe the equivalent tagged
variant (one spatial-vertex type with a `Node`/`Leaf` discriminant and the
common header fields in both arms), which is what the walking code below
uses.  The `contents` field is kept in both arms so that the header's tag
discipline (`contents == -1` for nodes, a real negative content mask for
leafs) is a checkable property of the data rather than baked into the
type. -/

/-- A BSP spatial vertex: either an internal node (plane, two children,
surface range) or a leaf (cluster/area, mark-surface view).  Fields mirror
`ps2_mdl_node_t` / `ps2_mdl_leaf_t`; `front`/`back` are `children[0]` and
`children[1]`. -/
inductive SpatialVertex where
  | node (contents : Int) (vis_frame : Int) (minmaxs : List Rat)
      (plane : cplane_t) (front back : SpatialVertex)
      (first_surface num_surfaces : Nat)
  | leaf (contents : Int) (vis_frame : Int) (minmaxs : List Rat)
      (cluster area : Int) (first_mark_surface : Nat) (num_mark_surfaces : Int)
deriving DecidableEq, Repr

/-- The common-prefix `contents` field of a spatial vertex. -/
def SpatialVertex.contents : SpatialVertex → Int
  | .node c _ _ _ _ _ _ _ => c
  | .leaf c _ _ _ _ _ _ => c

/-- Whether a spatial vertex is an internal node. -/
def SpatialVertex.isNode : SpatialVertex → Bool
  | .node _ _ _ _ _ _ _ _ => true
  | .leaf _ _ _ _ _ _ _ => false

/-- Reading `children[i]` through a spatial vertex: defined for nodes only,
with `children[0]` the front child and `children[1]` the back child. -/
def SpatialVertex.child : SpatialVertex → Nat → Option SpatialVertex
  | .node _ _ _ _ f b _ _, i => if i = 0 then some f else if i = 1 then some b else none
  | .leaf _ _ _ _ _ _ _, _ => none

/-- Reading the leaf-only `cluster` field through a spatial vertex: `none`
when the vertex is an internal node. -/
def SpatialVertex.readCluster : SpatialVertex → Option Int
  | .node _ _ _ _ _ _ _ _ => none
  | .leaf _ _ _ _ cl _ _ => some cl

/-- Reading the leaf-only `area` field through a spatial vertex: `none`
when the vertex is an internal node. -/
def SpatialVertex.readArea : SpatialVertex → Option Int
  | .node _ _ _ _ _ _ _ _ => none
  | .leaf _ _ _ _ _ ar _ => some ar

/-- All vertices of a BSP tree, the tree's root included. -/
def SpatialVertex.subvertices : SpatialVertex → List SpatialVertex
  | v@(.node _ _ _ _ f b _ _) => v :: (f.subvertices ++ b.subvertices)
  | v@(.leaf _ _ _ _ _ _ _) => [v]

/-- Modelled from the spec: the tag-discipline property test of section 8,
walking the whole tree.  Internal nodes must carry the `-1` sentinel
(model.h line 144) and leafs a real negative content mask distinct from the
sentinel (model.h line 166). -/
def tagDisciplineCheck : SpatialVertex → Bool
  | .node c _ _ _ f b _ _ =>
      c = -1 && tagDisciplineCheck f && tagDisciplineCheck b
  | .leaf c _ _ _ _ _ _ => c < 0 && c ≠ -1

/-- Modelled from the spec: one step of point traversal (section 4.2),
descending into the front child `children[0]` when the point is in the
plane's front half-space (nonnegative signed distance) and into the back
child `children[1]` otherwise; traversal stops at leaf vertices. -/
def traverseStep (v : SpatialVertex) (pt : vec3_t) : Option SpatialVertex :=
  match v with
  | .node _ _ _ p f b _ _ => if 0 ≤ signedDist p pt then some f else some b
  | .leaf _ _ _ _ _ _ _ => none

/-! ### Polygon building from a surface's edge range -/

/-- In-bounds lookup of the surf-edge entry at (Int) position `idx` of the
model's `surf_edges` array; `none` when `idx` falls outside
`[0, num_surf_edges)`. -/
def surfEdgeLookup (m : ps2_model_t) (idx : Int) : Option Int :=
  if idx < 0 then none else m.surf_edges[idx.toNat]?

/-- Modelled from the spec: resolving one signed surf-edge entry to the
vertex index its traversal starts at (sections 3 and 4.3; model.h lines
113-114: negative numbers are backwards edges).  A nonnegative entry `e`
walks edge `e` forwards and starts at `v0`; a negative entry walks edge
`-e` reversed and starts at `v1`. -/
def edgeStartVertexIndex (m : ps2_model_t) (lindex : Int) : Option Nat :=
  if lindex < 0 then
    (m.edges[(-lindex).toNat]?).map (fun e => e.v1)
  else
    (m.edges[lindex.toNat]?).map (fun e => e.v0)

/-- Modelled from the spec: building one polygon vertex (section 4.3): the
position comes from the vertex the signed surf-edge entry selects, and the
texture coordinates project the position through the bound texinfo's basis
vectors; the second coordinate pair is the lightmap placement, shifted by
the surface's `texture_mins`. -/
def buildPolyVert (m : ps2_model_t) (ti : ps2_mdl_texinfo_t)
    (s : ps2_mdl_surface_t) (lindex : Int) : Option ps2_poly_vert_t :=
  match edgeStartVertexIndex m lindex with
  | none => none
  | some vi =>
    match m.vertexes[vi]? with
    | none => none
    | some vert =>
      let p := vert.position
      let s1 := dot3 p ti.vecs0.xyz + ti.vecs0.w
      let t1 := dot3 p ti.vecs1.xyz + ti.vecs1.w
      some { pos := p, s1 := s1, t1 := t1,
             s2 := s1 - (s.texture_mins.1 : Rat), t2 := t1 - (s.texture_mins.2 : Rat) }

/-- Modelled from the spec: the polygon-building loop over a surface's edge
range (section 4.3), `n` entries starting at surf-edge position `pos`;
fails (`none`) as soon as a surf-edge lookup or a vertex resolution is out
of bounds. -/
def buildVertsAux (m : ps2_model_t) (ti : ps2_mdl_texinfo_t)
    (s : ps2_mdl_surface_t) : Nat → Int → Option (List ps2_poly_vert_t)
  | 0, _ => some []
  | n + 1, pos =>
    match surfEdgeLookup m pos with
    | none => none
    | some lindex =>
      match buildPolyVert m ti s lindex with
      | none => none
      | some v => (buildVertsAux m ti s n (pos + 1)).map (fun rest => v :: rest)

/-- Modelled from the spec: building the polygon of a surface from its edge
range `[first_edge, first_edge + num_edges)` (section 4.3); the function
body belongs to a translation unit not in this snapshot. -/
def PS2_BuildPolygonFromSurface (m : ps2_model_t) (s : ps2_mdl_surface_t) :
    Option ps2_mdl_poly_t :=
  match m.texinfos[s.texinfo]? with
  | none => none
  | some ti =>
    match buildVertsAux m ti s s.num_edges.toNat s.first_edge with
    | none => none
    | some vs =>
      some { next := none, chain := none, flags := s.flags,
             num_verts := (vs.length : Int), verts := vs }

/-! ### Structural well-formedness checkers

The spec states these as invariants the loader must establish
(sections 3 and 7: an index outside its owning array is an
`InvalidReference`).  They are decidable checkers so a concrete model can
be audited by evaluation. -/

/-- The edge range of a surface stays within `[0, num_surf_edges)` of the
owning model (spec, section 3, Surface invariant). -/
def surfaceEdgeRangeOK (m : ps2_model_t) (s : ps2_mdl_surface_t) : Bool :=
  0 ≤ s.first_edge && 0 ≤ s.num_edges &&
  s.first_edge + s.num_edges ≤ m.num_surf_edges

/-- A signed surf-edge entry references a real edge whose two vertex
numbers reference real vertices of the owning model. -/
def surfEdgeEntryOK (m : ps2_model_t) (lindex : Int) : Bool :=
  match m.edges[lindex.natAbs]? with
  | some e => e.v0 < m.vertexes.length && e.v1 < m.vertexes.length
  | none => false

/-- All references a surface resolves while being built are in bounds: its
edge range, its texinfo index, and every surf-edge entry of the range. -/
def surfaceRefsOK (m : ps2_model_t) (s : ps2_mdl_surface_t) : Bool :=
  surfaceEdgeRangeOK m s && s.texinfo < m.texinfos.length &&
  (List.range s.num_edges.toNat).all (fun k =>
    match surfEdgeLookup m (s.first_edge + k) with
    | some lindex => surfEdgeEntryOK m lindex
    | none => false)

/-- A loaded model is structurally well formed when every one of its
surfaces resolves only in-bounds references. -/
def modelWellFormed (m : ps2_model_t) : Bool :=
  m.surfaces.all (surfaceRefsOK m)

/-! ### The model registry

model.h declares the registry API (`PS2_ModelInit`, `PS2_ModelAlloc`,
`PS2_ModelFindOrLoad`, `PS2_ModelLoadWorld`, `PS2_ModelFree`) but its
translation unit is not in this snapshot, so the registry behaviour below
is modelled from the spec's Model Registry contract (section 4.4) and its
registration-sequence collection scheme.  Per the spec's design notes the
process-wide pool becomes an explicit `ModelRegistry` value threaded
through every call, with the pool capacity a parameter of `PS2_ModelInit`.
Fallible operations return an explicit success/failure signal next to the
updated registry (section 7: no exceptions as control flow). -/

/-- The error taxonomy of spec section 7. -/
inductive mdl_error where
  | poolExhausted
  | arenaExhausted
  | notFound
  | malformedAsset
deriving DecidableEq, Repr

/-- The external loader collaborator (spec section 6): given a name and
flags it produces a fully populated model aggregate or fails. -/
def LoaderFn : Type :=
  String → Int → Except mdl_error ps2_model_t

/-- Modelled from the spec: the registry's name hash (`hash(name)`, spec
section 4.4; model.h line 265 keeps it per model for faster lookup).  A
djb2-style string hash over a `u32`, wrap-around made explicit. -/
def hashName (s : String) : Nat :=
  s.foldl (fun h c => (h * 33 + c.toNat) % 4294967296) 5381

/-- Modelled from the spec: process-wide registry state (section 4.4): the
fixed-capacity pool of model slots, the monotonically increasing
registration sequence, and the shared world-model handle of
`PS2_ModelLoadWorld`. -/
structure ModelRegistry where
  pool : List (Option ps2_model_t)
  currentSequence : Int
  world : Option Nat
deriving DecidableEq, Repr

/-- The model live at slot `i` of a raw pool, when that slot exists and is
used. -/
def poolLive? (pool : List (Option ps2_model_t)) (i : Nat) : Option ps2_model_t :=
  (pool[i]?).join

/-- The model live in pool slot `i`, when slot `i` exists and is used. -/
def liveAt? (reg : ModelRegistry) (i : Nat) : Option ps2_model_t :=
  poolLive? reg.pool i

/-- Modelled from the spec: `PS2_ModelInit` (model.h line 280) establishes
the registry state: an all-free pool of the given capacity, sequence zero,
no world model. -/
def PS2_ModelInit (capacity : Nat) : ModelRegistry :=
  { pool := List.replicate capacity none, currentSequence := 0, world := none }

/-- First free slot index of a pool. -/
def firstFreeAux : List (Option ps2_model_t) → Option Nat
  | [] => none
  | none :: _ => some 0
  | some _ :: rest => (firstFreeAux rest).map (fun i => i + 1)

/-- Linear search of the pool for a used slot whose stored hash matches the
precomputed hash and whose name matches the full name (hash as a fast
filter, full name comparison decides — spec sections 4.4 and 9). -/
def poolFindAux (h : Nat) (name : String) :
    List (Option ps2_model_t) → Option (Nat × ps2_model_t)
  | [] => none
  | none :: rest => (poolFindAux h name rest).map (fun p => (p.1 + 1, p.2))
  | some m :: rest =>
    if m.hash = h ∧ m.name = name then some (0, m)
    else (poolFindAux h name rest).map (fun p => (p.1 + 1, p.2))

/-- A blank model, the contents of a freshly allocated pool slot. -/
def blankModel : ps2_model_t :=
  { type := 0, num_frames := 0, flags := 0,
    mins := ⟨0, 0, 0⟩, maxs := ⟨0, 0, 0⟩, radius := 0,
    clipbox := false, clipmins := ⟨0, 0, 0⟩, clipmaxs := ⟨0, 0, 0⟩,
    first_model_surface := 0, num_model_surfaces := 0, lightmap := 0,
    submodels := [], planes := [], leafs := [], vertexes := [], edges := [],
    first_node := 0, nodes := [], texinfos := [], surfaces := [],
    surf_edges := [], mark_surfaces := [], light_data := [], skins := [],
    registration_sequence := 0, hunk := ⟨0, 0⟩, hash := 0, name := "" }

/-- A model stamped with the registration sequence `cur` (every other
field untouched). -/
def stampModel (cur : Int) (m : ps2_model_t) : ps2_model_t :=
  { m with registration_sequence := cur }

/-- A loader-produced aggregate made ready for the pool: `hash` and `name`
set by the registry, stamped with the current sequence (spec section 4.4). -/
def commitModel (cur : Int) (hsh : Nat) (name : String)
    (asset : ps2_model_t) : ps2_model_t :=
  { asset with hash := hsh, name := name, registration_sequence := cur }

/-- The registry with pool slot `i` overwritten. -/
def setSlot (reg : ModelRegistry) (i : Nat) (s : Option ps2_model_t) :
    ModelRegistry :=
  { reg with pool := reg.pool.set i s }

/-- Modelled from the spec: `PS2_ModelAlloc` (model.h lines 283-285):
returns the first unused slot of the fixed pool, blank and stamped with the
current sequence, or fails with `PoolExhausted` when no free slot exists
(no dynamic growth). -/
def PS2_ModelAlloc (reg : ModelRegistry) :
    Except mdl_error (Nat × ModelRegistry) :=
  match firstFreeAux reg.pool with
  | none => .error .poolExhausted
  | some i => .ok (i, setSlot reg i (some (stampModel reg.currentSequence blankModel)))

/-- Modelled from the spec: `PS2_ModelFree` (model.h line 296): marks the
slot unused and releases its arena (the slot's whole aggregate, its hunk
included, leaves the pool). -/
def PS2_ModelFree (reg : ModelRegistry) (i : Nat) : ModelRegistry :=
  setSlot reg i none

/-- Modelled from the spec: `PS2_ModelFindOrLoad` (model.h lines 287-288,
spec section 4.4).  Computes the name hash; on a pool hit stamps the
existing instance's `registration_sequence` with the current sequence and
returns it without touching the loader; on a miss allocates a slot, invokes
the external loader, and either commits the populated aggregate (with
`hash`/`name`/`registration_sequence` set) to the slot or, when the loader
fails, returns the slot to the pool and propagates the loader's error. -/
def PS2_ModelFindOrLoad (loader : LoaderFn) (reg : ModelRegistry)
    (name : String) (flags : Int) : Except mdl_error Nat × ModelRegistry :=
  match poolFindAux (hashName name) name reg.pool with
  | some (i, m) =>
    (.ok i, setSlot reg i (some (stampModel reg.currentSequence m)))
  | none =>
    match PS2_ModelAlloc reg with
    | .error e => (.error e, reg)
    | .ok (i, regA) =>
      match loader name flags with
      | .error e => (.error e, PS2_ModelFree regA i)
      | .ok asset =>
        (.ok i, setSlot regA i
          (some (commitModel reg.currentSequence (hashName name) name asset)))

/-- Modelled from the spec: `PS2_ModelLoadWorld` (model.h lines 290-293,
spec section 4.4): at most one world model instance may be live at a time,
so loading a new world first releases the previous one, then resolves the
named world like `PS2_ModelFindOrLoad` and records the resulting slot as
the process-wide shared world handle. -/
def PS2_ModelLoadWorld (loader : LoaderFn) (reg : ModelRegistry)
    (name : String) : Except mdl_error Nat × ModelRegistry :=
  let reg1 :=
    match reg.world with
    | some j => PS2_ModelFree reg j
    | none => reg
  match PS2_ModelFindOrLoad loader reg1 name 0 with
  | (.ok i, reg2) => (.ok i, { reg2 with world := some i })
  | (.error e, reg2) => (.error e, { reg2 with world := none })

/-- Modelled from the spec: the sweep of the registration-sequence
collection (section 4.4): free every pool entry whose
`registration_sequence` is strictly below the current sequence. -/
def sweepPool (cur : Int) : List (Option ps2_model_t) → List (Option ps2_model_t) :=
  List.map (fun slot =>
    match slot with
    | some m => if m.registration_sequence < cur then none else some m
    | none => none)

/-- Modelled from the spec: the registry's collection sweep as one
operation over the whole registry state. -/
def PS2_ModelSweep (reg : ModelRegistry) : ModelRegistry :=
  { reg with pool := sweepPool reg.currentSequence reg.pool }

/-- Modelled from the spec: incrementing the registration sequence when a
new level begins loading (section 4.4). -/
def PS2_ModelIncSequence (reg : ModelRegistry) : ModelRegistry :=
  { reg with currentSequence := reg.currentSequence + 1 }

/-- The registry's public mutating surface as callers drive it (spec
sections 4.4 and 5): resolving models, loading a world, beginning a level
(sequence increment), the collection sweep, and explicit frees.  Slot
allocation happens inside `PS2_ModelFindOrLoad`, which fully populates a
slot before it becomes visible (section 5's ordering discipline). -/
inductive RegistryOp where
  | findOrLoad (name : String) (flags : Int)
  | loadWorld (name : String)
  | incSequence
  | sweep
  | free (i : Nat)
deriving DecidableEq, Repr

/-- The registry state an operation leaves behind (a failed operation
leaves the state its failure path produced). -/
def applyOp (loader : LoaderFn) (reg : ModelRegistry) : RegistryOp → ModelRegistry
  | .findOrLoad name flags => (PS2_ModelFindOrLoad loader reg name flags).2
  | .loadWorld name => (PS2_ModelLoadWorld loader reg name).2
  | .incSequence => PS2_ModelIncSequence reg
  | .sweep => PS2_ModelSweep reg
  | .free i => PS2_ModelFree reg i

/-- The reachable registry states: everything the public operations can
produce from a freshly initialized registry of any capacity. -/
inductive Reachable (loader : LoaderFn) : ModelRegistry → Prop
  | init (capacity : Nat) : Reachable loader (PS2_ModelInit capacity)
  | step (op : RegistryOp) {reg : ModelRegistry} :
      Reachable loader reg → Reachable loader (applyOp loader reg op)

/-- The loader contract (spec section 6): a produced aggregate carries a
mutually exclusive model type variant. -/
def LoaderTypesOK (loader : LoaderFn) : Prop :=
  ∀ name flags m, loader name flags = .ok m →
    m.type = MDL_BRUSH ∨ m.type = MDL_SPRITE ∨ m.type = MDL_ENTITY

/-- The registration-sequence invariant over a raw pool: every live model's
stamp is at most the current sequence (spec section 8). -/
def seqInvPool (cur : Int) (pool : List (Option ps2_model_t)) : Prop :=
  ∀ i m, poolLive? pool i = some m → m.registration_sequence ≤ cur

/-- The registration-sequence invariant of a registry state. -/
def seqInv (reg : ModelRegistry) : Prop :=
  seqInvPool reg.currentSequence reg.pool

/-- The type-tag invariant over a raw pool: every live model's `type` is
exactly one of the three `ps2_mdl_type_t` variants. -/
def typeInvPool (pool : List (Option ps2_model_t)) : Prop :=
  ∀ i m, poolLive? pool i = some m →
    m.type = MDL_BRUSH ∨ m.type = MDL_SPRITE ∨ m.type = MDL_ENTITY

/-- The type-tag invariant of a registry state. -/
def typeInv (reg : ModelRegistry) : Prop :=
  typeInvPool reg.pool

/-- The registry state after one `PS2_ModelAlloc` call (the allocated index
discarded; a failed call leaves the registry as it was). -/
def allocStep (reg : ModelRegistry) : ModelRegistry :=
  match PS2_ModelAlloc reg with
  | .ok (_, reg2) => reg2
  | .error _ => reg

/-- The registry state after `n` consecutive `PS2_ModelAlloc` calls. -/
def allocN : Nat → ModelRegistry → ModelRegistry
  | 0, reg => reg
  | n + 1, reg => allocN n (allocStep reg)

/-! ### Concrete fixtures

Small concrete loaders, registries, models and trees, used to evaluate the
definitions on closed inputs. -/

/-- A loader that always produces a blank brush model. -/
def loaderW : LoaderFn := fun _ _ => .ok { blankModel with type := MDL_BRUSH }

/-- A loader whose storage has no assets at all. -/
def loaderNF : LoaderFn := fun _ _ => .error .notFound

/-- A two-slot registry fresh out of `PS2_ModelInit`. -/
def regW0 : ModelRegistry := PS2_ModelInit 2

/-- The registry state after resolving model "x" once in `regW0`. -/
def regW1 : ModelRegistry := (PS2_ModelFindOrLoad loaderW regW0 "x" 0).2

/-- The registry state after loading world "a" into `regW0`. -/
def regCW : ModelRegistry := (PS2_ModelLoadWorld loaderW regW0 "a").2

/-- A reachable four-slot registry state with one resolved model. -/
def regW2 : ModelRegistry :=
  applyOp loaderW (PS2_ModelInit 4) (.findOrLoad "x" 0)

/-- The registry state after loading world "b" on top of `regCW` (whose
live world is "a"). -/
def regC2 : ModelRegistry := (PS2_ModelLoadWorld loaderW regCW "b").2

/-- The model instance that `regW2` holds in slot 0. -/
def mW_x : ps2_model_t :=
  { blankModel with
    type := MDL_BRUSH
    hash := hashName "x"
    name := "x"
    registration_sequence := 0 }

/-- The world model instance that `regCW` holds in slot 0. -/
def mW_a : ps2_model_t :=
  { blankModel with
    type := MDL_BRUSH
    hash := hashName "a"
    name := "a"
    registration_sequence := 0 }

/-- A one-edge fixture edge. -/
def edgeW : ps2_mdl_edge_t := { v0 := 0, v1 := 0, cached_edge_offset := 0 }

/-- A fixture vertex at the origin. -/
def vertW : ps2_mdl_vertex_t := { position := ⟨0, 0, 0⟩ }

/-- A fixture texinfo with axis-aligned basis vectors. -/
def texW : ps2_mdl_texinfo_t :=
  { vecs0 := ⟨1, 0, 0, 0⟩, vecs1 := ⟨0, 1, 0, 0⟩, flags := 0,
    num_frames := 0, teximage := none, next := none }

/-- A fixture surface with the one-entry edge range `[0, 1)`. -/
def surfW : ps2_mdl_surface_t :=
  { vis_frame := 0, plane := 0, flags := 0, first_edge := 0, num_edges := 1,
    texture_mins := (0, 0), extents := (0, 0), light_s := 0, light_t := 0,
    dlight_s := 0, dlight_t := 0, polys := none, texture_chain := none,
    lightmap_chain := none, texinfo := 0, dlight_frame := 0, dlight_bits := 0,
    lightmap_texture_num := 0, styles := [], cached_light := [], samples := [] }

/-- A fixture model with one vertex, one edge, one surf-edge entry and one
surface; structurally well formed. -/
def modelW : ps2_model_t :=
  { blankModel with
    vertexes := [vertW]
    edges := [edgeW]
    texinfos := [texW]
    surfaces := [surfW]
    surf_edges := [0] }

/-- A fixture BSP tree: one splitting node over two leaves with real
negative content masks. -/
def treeW : SpatialVertex :=
  .node (-1) 0 [] { normal := ⟨1, 0, 0⟩, dist := 0 }
    (.leaf (-2) 0 [] 0 0 0 0)
    (.leaf (-3) 0 [] 1 0 0 0)
    0 0

/-! ## Theorems -/

/-! ### List and pool helper lemmas -/

/-- Setting a list position to the value it already holds changes nothing. -/
theorem set_same_of_getElem? {α : Type} (l : List α) (i : Nat) (a : α)
    (h : l[i]? = some a) : l.set i a = l := by
  induction l generalizing i with
  | nil => simp at h
  | cons x xs ih =>
    cases i with
    | zero => simp at h; simp [List.set, h]
    | succ k => simp at h; simp [List.set, ih k h]

/-- `firstFreeAux` returns `none` exactly when the pool has no free slot. -/
theorem firstFreeAux_eq_none_iff (pool : List (Option ps2_model_t)) :
    firstFreeAux pool = none ↔ ∀ i : Nat, pool[i]? ≠ some none := by
  induction pool with
  | nil => simp [firstFreeAux]
  | cons s rest ih =>
    cases s with
    | none =>
      constructor
      · intro h; cases h
      · intro h; exact absurd (by simp) (h 0)
    | some m =>
      simp only [firstFreeAux, Option.map_eq_none']
      rw [ih]
      constructor
      · intro h i
        cases i with
        | zero => simp
        | succ k => simpa using h k
      · intro h k
        simpa using h (k + 1)

/-- A slot `firstFreeAux` returns exists and is free. -/
theorem firstFreeAux_spec (pool : List (Option ps2_model_t)) (i : Nat)
    (h : firstFreeAux pool = some i) : pool[i]? = some none := by
  induction pool generalizing i with
  | nil => cases h
  | cons s rest ih =>
    cases s with
    | none =>
      cases h
      simp
    | some m =>
      simp only [firstFreeAux, Option.map_eq_some'] at h
      obtain ⟨j, hj, rfl⟩ := h
      simpa using ih j hj

/-- The entry `poolFindAux` finds is live at the returned index and matches
the probed hash and name. -/
theorem poolFindAux_found (h : Nat) (name : String)
    (pool : List (Option ps2_model_t)) (i : Nat) (m : ps2_model_t)
    (hf : poolFindAux h name pool = some (i, m)) :
    pool[i]? = some (some m) ∧ m.hash = h ∧ m.name = name := by
  induction pool generalizing i with
  | nil => cases hf
  | cons s rest ih =>
    cases s with
    | none =>
      simp only [poolFindAux, Option.map_eq_some'] at hf
      obtain ⟨⟨j, m'⟩, hj, heq⟩ := hf
      cases heq
      obtain ⟨h1, h2, h3⟩ := ih j hj
      exact ⟨by simpa using h1, h2, h3⟩
    | some m0 =>
      by_cases hm : m0.hash = h ∧ m0.name = name
      · simp only [poolFindAux, if_pos hm] at hf
        cases hf
        exact ⟨by simp, hm⟩
      · simp only [poolFindAux, if_neg hm, Option.map_eq_some'] at hf
        obtain ⟨⟨j, m'⟩, hj, heq⟩ := hf
        cases heq
        obtain ⟨h1, h2, h3⟩ := ih j hj
        exact ⟨by simpa using h1, h2, h3⟩

/-- Replacing the found entry by another entry with the same hash and name
makes the search find the replacement at the same index. -/
theorem poolFindAux_set_of_found (h : Nat) (name : String)
    (pool : List (Option ps2_model_t)) (i : Nat) (m m' : ps2_model_t)
    (hf : poolFindAux h name pool = some (i, m))
    (hh : m'.hash = h) (hn : m'.name = name) :
    poolFindAux h name (pool.set i (some m')) = some (i, m') := by
  induction pool generalizing i with
  | nil => cases hf
  | cons s rest ih =>
    cases s with
    | none =>
      simp only [poolFindAux, Option.map_eq_some'] at hf
      obtain ⟨⟨j, m₀⟩, hj, heq⟩ := hf
      cases heq
      simp only [List.set, poolFindAux, ih j hj, Option.map_some']
    | some m0 =>
      by_cases hm : m0.hash = h ∧ m0.name = name
      · simp only [poolFindAux, if_pos hm] at hf
        cases hf
        simp only [List.set, poolFindAux, if_pos (And.intro hh hn)]
      · simp only [poolFindAux, if_neg hm, Option.map_eq_some'] at hf
        obtain ⟨⟨j, m₀⟩, hj, heq⟩ := hf
        cases heq
        simp only [List.set, poolFindAux, if_neg hm, ih j hj, Option.map_some']

/-- Writing a matching entry into a free slot of a pool the search misses
makes the search find exactly that entry. -/
theorem poolFindAux_set_of_none (h : Nat) (name : String)
    (pool : List (Option ps2_model_t)) (i : Nat) (m' : ps2_model_t)
    (hf : poolFindAux h name pool = none)
    (hi : pool[i]? = some none)
    (hh : m'.hash = h) (hn : m'.name = name) :
    poolFindAux h name (pool.set i (some m')) = some (i, m') := by
  induction pool generalizing i with
  | nil => simp at hi
  | cons s rest ih =>
    cases i with
    | zero =>
      have hs : s = none := by simpa using hi
      subst hs
      simp only [List.set, poolFindAux, if_pos (And.intro hh hn)]
    | succ k =>
      have hk : rest[k]? = some none := by simpa using hi
      cases s with
      | none =>
        simp only [poolFindAux, Option.map_eq_none'] at hf
        simp only [List.set, poolFindAux, ih k hf hk, Option.map_some']
      | some m0 =>
        by_cases hm : m0.hash = h ∧ m0.name = name
        · simp [poolFindAux, if_pos hm] at hf
        · simp only [poolFindAux, if_neg hm, Option.map_eq_none'] at hf
          simp only [List.set, poolFindAux, if_neg hm, ih k hf hk, Option.map_some']

/-! ### Running `PS2_ModelFindOrLoad` along each of its paths -/

/-- Overwriting pool slot `i` twice keeps only the second write. -/
theorem setSlot_setSlot (reg : ModelRegistry) (i : Nat)
    (a b : Option ps2_model_t) :
    setSlot (setSlot reg i a) i b = setSlot reg i b := by
  simp [setSlot, List.set_set]

/-- Freeing a slot that is already free changes nothing. -/
theorem setSlot_none_of_free (reg : ModelRegistry) (i : Nat)
    (h : reg.pool[i]? = some none) : setSlot reg i none = reg := by
  simp [setSlot, set_same_of_getElem? reg.pool i none h]

/-- A pool hit stamps the found instance with the current sequence and
returns its index; the loader is not consulted. -/
theorem findOrLoad_hit_run (loader : LoaderFn) (reg : ModelRegistry)
    (name : String) (flags : Int) (i : Nat) (m : ps2_model_t)
    (hf : poolFindAux (hashName name) name reg.pool = some (i, m)) :
    PS2_ModelFindOrLoad loader reg name flags =
      (.ok i, setSlot reg i (some (stampModel reg.currentSequence m))) := by
  unfold PS2_ModelFindOrLoad
  rw [hf]

/-- A pool miss with a free slot and a successful load commits the
populated aggregate, stamped and renamed, to the allocated slot. -/
theorem findOrLoad_miss_run_ok (loader : LoaderFn) (reg : ModelRegistry)
    (name : String) (flags : Int) (i : Nat) (asset : ps2_model_t)
    (hpf : poolFindAux (hashName name) name reg.pool = none)
    (hff : firstFreeAux reg.pool = some i)
    (hld : loader name flags = .ok asset) :
    PS2_ModelFindOrLoad loader reg name flags =
      (.ok i, setSlot reg i
        (some (commitModel reg.currentSequence (hashName name) name asset))) := by
  unfold PS2_ModelFindOrLoad PS2_ModelAlloc
  rw [hpf, hff, hld]
  dsimp only
  rw [setSlot_setSlot]

/-- A pool miss with a free slot and a failing loader propagates the
loader's error and leaves the registry exactly as it was: the slot
allocated for the attempt is returned to the pool. -/
theorem findOrLoad_miss_run_err (loader : LoaderFn) (reg : ModelRegistry)
    (name : String) (flags : Int) (i : Nat) (e : mdl_error)
    (hpf : poolFindAux (hashName name) name reg.pool = none)
    (hff : firstFreeAux reg.pool = some i)
    (hld : loader name flags = .error e) :
    PS2_ModelFindOrLoad loader reg name flags = (.error e, reg) := by
  have hfree := firstFreeAux_spec reg.pool i hff
  unfold PS2_ModelFindOrLoad PS2_ModelAlloc
  rw [hpf, hff, hld]
  dsimp only [PS2_ModelFree]
  rw [setSlot_setSlot, setSlot_none_of_free reg i hfree]

/-- A pool miss with no free slot fails with `PoolExhausted` and leaves
the registry unchanged. -/
theorem findOrLoad_nofree_run (loader : LoaderFn) (reg : ModelRegistry)
    (name : String) (flags : Int)
    (hpf : poolFindAux (hashName name) name reg.pool = none)
    (hff : firstFreeAux reg.pool = none) :
    PS2_ModelFindOrLoad loader reg name flags = (.error .poolExhausted, reg) := by
  unfold PS2_ModelFindOrLoad PS2_ModelAlloc
  rw [hpf, hff]

/-- Anatomy of a successful `PS2_ModelFindOrLoad`: the returned index holds
an instance carrying the probed name and hash, stamped with the current
sequence; only that slot changes; a subsequent search finds exactly that
instance at that index; and the instance is either the previously live one
restamped (hit) or the loader's aggregate committed (miss). -/
theorem findOrLoad_ok_spec (loader : LoaderFn) (reg : ModelRegistry)
    (name : String) (flags : Int) (i : Nat) (reg2 : ModelRegistry)
    (h : PS2_ModelFindOrLoad loader reg name flags = (.ok i, reg2)) :
    ∃ mi, reg2 = setSlot reg i (some mi) ∧
      mi.name = name ∧ mi.hash = hashName name ∧
      mi.registration_sequence = reg.currentSequence ∧
      i < reg.pool.length ∧
      poolFindAux (hashName name) name reg2.pool = some (i, mi) ∧
      ((∃ m0, poolLive? reg.pool i = some m0 ∧
          mi = stampModel reg.currentSequence m0) ∨
       (∃ asset, loader name flags = .ok asset ∧
          mi = commitModel reg.currentSequence (hashName name) name asset)) := by
  cases hpf : poolFindAux (hashName name) name reg.pool with
  | some p =>
    obtain ⟨i0, m⟩ := p
    rw [findOrLoad_hit_run loader reg name flags i0 m hpf] at h
    injection h with h1 h2
    injection h1 with h1
    subst h1
    subst h2
    obtain ⟨hlive, hh, hn⟩ := poolFindAux_found _ _ _ _ _ hpf
    obtain ⟨hlt, -⟩ := List.getElem?_eq_some_iff.mp hlive
    refine ⟨stampModel reg.currentSequence m, rfl, hn, by simpa [stampModel] using hh,
      rfl, hlt, ?_, Or.inl ⟨m, by simp [poolLive?, hlive], rfl⟩⟩
    exact poolFindAux_set_of_found _ _ _ _ _ _ hpf
      (by simpa [stampModel] using hh) (by simpa [stampModel] using hn)
  | none =>
    cases hff : firstFreeAux reg.pool with
    | none =>
      rw [findOrLoad_nofree_run loader reg name flags hpf hff] at h
      simp at h
    | some j =>
      cases hld : loader name flags with
      | error e =>
        rw [findOrLoad_miss_run_err loader reg name flags j e hpf hff hld] at h
        simp at h
      | ok asset =>
        rw [findOrLoad_miss_run_ok loader reg name flags j asset hpf hff hld] at h
        injection h with h1 h2
        injection h1 with h1
        subst h1
        subst h2
        have hfree := firstFreeAux_spec reg.pool j hff
        obtain ⟨hlt, -⟩ := List.getElem?_eq_some_iff.mp hfree
        refine ⟨commitModel reg.currentSequence (hashName name) name asset,
          rfl, rfl, rfl, rfl, hlt, ?_, Or.inr ⟨asset, rfl, rfl⟩⟩
        exact poolFindAux_set_of_none _ _ _ _ _ hpf hfree rfl rfl

/-! ### The claims -/

/-- Claim C9: for every plane and classification point, `classify` returns
exactly one of `SIDE_FRONT = 0`, `SIDE_BACK = 1`, `SIDE_ON = 2`; it returns
`ON` precisely when the signed distance lies within the epsilon tolerance
band around zero, `FRONT` when the distance is above the band, and `BACK`
when it is below it. -/
theorem C9_classify_front_back_on (p : cplane_t) (pt : vec3_t) :
    (classify p pt = SIDE_FRONT ∨ classify p pt = SIDE_BACK ∨ classify p pt = SIDE_ON) ∧
    (classify p pt = SIDE_ON ↔
      -ON_EPSILON ≤ signedDist p pt ∧ signedDist p pt ≤ ON_EPSILON) ∧
    (classify p pt = SIDE_FRONT ↔ ON_EPSILON < signedDist p pt) ∧
    (classify p pt = SIDE_BACK ↔ signedDist p pt < -ON_EPSILON) ∧
    (SIDE_FRONT ≠ SIDE_BACK ∧ SIDE_FRONT ≠ SIDE_ON ∧ SIDE_BACK ≠ SIDE_ON) := by
  have heps : (0 : Rat) < ON_EPSILON := by norm_num [ON_EPSILON]
  have hc : classify p pt =
      if ON_EPSILON < signedDist p pt then SIDE_FRONT
      else if signedDist p pt < -ON_EPSILON then SIDE_BACK else SIDE_ON := rfl
  by_cases h1 : ON_EPSILON < signedDist p pt
  · rw [hc, if_pos h1]
    refine ⟨Or.inl rfl, ?_, ?_, ?_, by decide, by decide, by decide⟩
    · exact ⟨fun hab => absurd hab (by decide),
        fun hb => absurd hb.2 (not_le.mpr h1)⟩
    · exact ⟨fun _ => h1, fun _ => rfl⟩
    · exact ⟨fun hab => absurd hab (by decide),
        fun hb => absurd hb (not_lt.mpr (by linarith))⟩
  · by_cases h2 : signedDist p pt < -ON_EPSILON
    · rw [hc, if_neg h1, if_pos h2]
      refine ⟨Or.inr (Or.inl rfl), ?_, ?_, ?_, by decide, by decide, by decide⟩
      · exact ⟨fun hab => absurd hab (by decide),
          fun hb => absurd hb.1 (not_le.mpr h2)⟩
      · exact ⟨fun hab => absurd hab (by decide), fun hb => absurd hb h1⟩
      · exact ⟨fun _ => h2, fun _ => rfl⟩
    · rw [hc, if_neg h1, if_neg h2]
      refine ⟨Or.inr (Or.inr rfl), ?_, ?_, ?_, by decide, by decide, by decide⟩
      · exact ⟨fun _ => ⟨not_lt.mp h2, not_lt.mp h1⟩, fun _ => rfl⟩
      · exact ⟨fun hab => absurd hab (by decide), fun hb => absurd hb h1⟩
      · exact ⟨fun hab => absurd hab (by decide), fun hb => absurd hb h2⟩

/-- Claim C4: `PS2_ModelAlloc` fails with `PoolExhausted` exactly when the
pool has no free slot; a successful call returns a slot that was free,
filled blank; and from a fresh capacity-4 pool, four allocations succeed
and the fifth fails with `PoolExhausted`. -/
theorem C4_alloc_pool_exhaustion (reg : ModelRegistry) :
    (PS2_ModelAlloc reg = .error .poolExhausted ↔
      ∀ i : Nat, reg.pool[i]? ≠ some none) ∧
    (∀ i reg2, PS2_ModelAlloc reg = .ok (i, reg2) →
      reg.pool[i]? = some none ∧
      reg2 = setSlot reg i (some (stampModel reg.currentSequence blankModel))) ∧
    PS2_ModelAlloc (allocN 4 (PS2_ModelInit 4)) = .error .poolExhausted := by
  refine ⟨?_, ?_, by rfl⟩
  · rw [← firstFreeAux_eq_none_iff]
    unfold PS2_ModelAlloc
    cases hff : firstFreeAux reg.pool <;> simp
  · intro i reg2 h
    unfold PS2_ModelAlloc at h
    cases hff : firstFreeAux reg.pool with
    | none => rw [hff] at h; cases h
    | some j =>
      rw [hff] at h
      injection h with h1
      injection h1 with h1 h2
      subst h1
      subst h2
      exact ⟨firstFreeAux_spec reg.pool _ hff, rfl⟩

/-- Claim C1: a second `PS2_ModelFindOrLoad` with the same name, with no
intervening free, returns the identical pool instance at the identical
index, for any loader and flags on the second call (no reload from
storage); the registry changes only by restamping that slot's
`registration_sequence` (no duplicate slot is allocated). -/
theorem C1_findOrLoad_idempotent (loader loader2 : LoaderFn)
    (reg reg1 : ModelRegistry) (name : String) (flags flags2 : Int) (i : Nat)
    (h : PS2_ModelFindOrLoad loader reg name flags = (.ok i, reg1)) :
    ∃ m, liveAt? reg1 i = some m ∧ m.name = name ∧
      PS2_ModelFindOrLoad loader2 reg1 name flags2 =
        (.ok i, setSlot reg1 i (some (stampModel reg1.currentSequence m))) ∧
      (∀ j : Nat, j ≠ i →
        (setSlot reg1 i (some (stampModel reg1.currentSequence m))).pool[j]? =
          reg1.pool[j]?) ∧
      (setSlot reg1 i (some (stampModel reg1.currentSequence m))).pool.length =
        reg1.pool.length ∧
      liveAt? (setSlot reg1 i (some (stampModel reg1.currentSequence m))) i =
        some (stampModel reg1.currentSequence m) := by
  obtain ⟨mi, rfl, hn, hh, hs, hlt, hfind, -⟩ :=
    findOrLoad_ok_spec loader reg name flags i reg1 h
  have hlt1 : i < (setSlot reg i (some mi)).pool.length := by
    simpa [setSlot] using hlt
  refine ⟨mi, ?_, hn, ?_, ?_, ?_, ?_⟩
  · simp [liveAt?, poolLive?, setSlot, List.getElem?_set_self hlt]
  · exact findOrLoad_hit_run loader2 _ name flags2 i mi hfind
  · intro j hj
    simp [setSlot, List.getElem?_set_ne (Ne.symm hj)]
  · simp [setSlot]
  · simp [liveAt?, poolLive?, setSlot, List.set_set, List.getElem?_set_self hlt]

/-- Witness for C1 at a concrete input: resolving "x" twice in a fresh
two-slot registry returns slot 0 both times, the second time restamping
only that slot. -/
theorem C1_witness :
    ∃ m, liveAt? regW1 0 = some m ∧ m.name = "x" ∧
      PS2_ModelFindOrLoad loaderW regW1 "x" 0 =
        (.ok 0, setSlot regW1 0 (some (stampModel regW1.currentSequence m))) ∧
      (∀ j : Nat, j ≠ 0 →
        (setSlot regW1 0 (some (stampModel regW1.currentSequence m))).pool[j]? =
          regW1.pool[j]?) ∧
      (setSlot regW1 0 (some (stampModel regW1.currentSequence m))).pool.length =
        regW1.pool.length ∧
      liveAt? (setSlot regW1 0 (some (stampModel regW1.currentSequence m))) 0 =
        some (stampModel regW1.currentSequence m) :=
  C1_findOrLoad_idempotent loaderW loaderW regW0 regW1 "x" 0 0 0 rfl

/-- Claim C8: when `PS2_ModelFindOrLoad` misses in the pool and the
external loader fails with `NotFound`, the operation fails with `NotFound`
and the registry is exactly as before the call: the slot allocated for the
attempt is back in the pool and no partially populated aggregate (arena
included) remains anywhere. -/
theorem C8_notfound_returns_slot (loader : LoaderFn) (reg : ModelRegistry)
    (name : String) (flags : Int) (i : Nat)
    (hmiss : poolFindAux (hashName name) name reg.pool = none)
    (hfree : firstFreeAux reg.pool = some i)
    (hload : loader name flags = .error .notFound) :
    PS2_ModelFindOrLoad loader reg name flags = (.error .notFound, reg) :=
  findOrLoad_miss_run_err loader reg name flags i .notFound hmiss hfree hload

/-- Witness for C8 at a concrete input: an empty-storage loader makes the
resolution of "maps/base1.bsp" in a fresh registry fail with `NotFound`
and leave the registry untouched. -/
theorem C8_witness :
    PS2_ModelFindOrLoad loaderNF regW0 "maps/base1.bsp" 0 =
      (.error .notFound, regW0) :=
  C8_notfound_returns_slot loaderNF regW0 "maps/base1.bsp" 0 0 rfl rfl rfl

/-! ### Pool-level invariant plumbing -/

/-- Reading back the slot just written. -/
theorem poolLive?_set_self (pool : List (Option ps2_model_t)) (i : Nat)
    (s : Option ps2_model_t) (h : i < pool.length) :
    poolLive? (pool.set i s) i = s := by
  unfold poolLive?
  rw [List.getElem?_set_self h]
  cases s <;> rfl

/-- Reading any other slot after a write. -/
theorem poolLive?_set_ne (pool : List (Option ps2_model_t)) (i j : Nat)
    (s : Option ps2_model_t) (h : i ≠ j) :
    poolLive? (pool.set i s) j = poolLive? pool j := by
  simp [poolLive?, List.getElem?_set_ne h]

/-- Writing one slot preserves the sequence invariant as long as the
written model (if any) is stamped at most at the current sequence. -/
theorem seqInvPool_set (cur : Int) (pool : List (Option ps2_model_t))
    (i : Nat) (s : Option ps2_model_t)
    (h : seqInvPool cur pool)
    (hs : ∀ m, s = some m → m.registration_sequence ≤ cur) :
    seqInvPool cur (pool.set i s) := by
  intro j m' hj
  by_cases hij : i = j
  · subst hij
    by_cases hlen : i < pool.length
    · rw [poolLive?_set_self pool i s hlen] at hj
      cases s with
      | none => cases hj
      | some m =>
        cases hj
        exact hs _ rfl
    · rw [List.set_eq_of_length_le (Nat.le_of_not_lt hlen)] at hj
      exact h i m' hj
  · rw [poolLive?_set_ne pool i j s hij] at hj
    exact h j m' hj

/-- A larger current sequence keeps the invariant. -/
theorem seqInvPool_mono (cur cur' : Int) (pool : List (Option ps2_model_t))
    (hcc : cur ≤ cur') (h : seqInvPool cur pool) : seqInvPool cur' pool :=
  fun i m hm => le_trans (h i m hm) hcc

/-- What the sweep leaves in each slot: live entries stamped strictly below
the current sequence are freed, everything else is untouched. -/
theorem poolLive?_sweep (cur : Int) (pool : List (Option ps2_model_t)) (i : Nat) :
    poolLive? (sweepPool cur pool) i =
      (poolLive? pool i).bind
        (fun m => if m.registration_sequence < cur then none else some m) := by
  unfold poolLive? sweepPool
  rw [List.getElem?_map]
  cases hp : pool[i]? with
  | none => rfl
  | some s =>
    cases s with
    | none => rfl
    | some m =>
      by_cases hst : m.registration_sequence < cur
      · simp [hst]
      · simp [hst]

/-- A failing `PS2_ModelFindOrLoad` leaves the registry exactly as it
was. -/
theorem findOrLoad_error_state (loader : LoaderFn) (reg : ModelRegistry)
    (name : String) (flags : Int) (e : mdl_error) (reg2 : ModelRegistry)
    (h : PS2_ModelFindOrLoad loader reg name flags = (.error e, reg2)) :
    reg2 = reg := by
  cases hpf : poolFindAux (hashName name) name reg.pool with
  | some p =>
    obtain ⟨i0, m⟩ := p
    rw [findOrLoad_hit_run loader reg name flags i0 m hpf] at h
    simp at h
  | none =>
    cases hff : firstFreeAux reg.pool with
    | none =>
      rw [findOrLoad_nofree_run loader reg name flags hpf hff] at h
      injection h with h1 h2
      exact h2.symm
    | some j =>
      cases hld : loader name flags with
      | error e2 =>
        rw [findOrLoad_miss_run_err loader reg name flags j e2 hpf hff hld] at h
        injection h with h1 h2
        exact h2.symm
      | ok asset =>
        rw [findOrLoad_miss_run_ok loader reg name flags j asset hpf hff hld] at h
        simp at h

/-- `PS2_ModelFindOrLoad` preserves the sequence invariant whatever it
returns. -/
theorem seqInv_findOrLoad (loader : LoaderFn) (reg : ModelRegistry)
    (name : String) (flags : Int) (h : seqInv reg) :
    seqInv (PS2_ModelFindOrLoad loader reg name flags).2 := by
  cases hr : PS2_ModelFindOrLoad loader reg name flags with
  | mk res reg2 =>
    cases res with
    | ok i =>
      obtain ⟨mi, rfl, -, -, hs, -, -, -⟩ :=
        findOrLoad_ok_spec loader reg name flags i reg2 hr
      exact seqInvPool_set reg.currentSequence reg.pool i (some mi) h
        (fun m hm => by cases hm; exact le_of_eq hs)
    | error e =>
      rw [findOrLoad_error_state loader reg name flags e reg2 hr]
      exact h

/-- `PS2_ModelFree` preserves the sequence invariant. -/
theorem seqInv_free (reg : ModelRegistry) (i : Nat) (h : seqInv reg) :
    seqInv (PS2_ModelFree reg i) :=
  seqInvPool_set reg.currentSequence reg.pool i none h (fun m hm => by cases hm)

/-- `PS2_ModelLoadWorld` preserves the sequence invariant whatever it
returns. -/
theorem seqInv_loadWorld (loader : LoaderFn) (reg : ModelRegistry)
    (name : String) (h : seqInv reg) :
    seqInv (PS2_ModelLoadWorld loader reg name).2 := by
  unfold PS2_ModelLoadWorld
  cases hw : reg.world with
  | none =>
    dsimp only
    cases hr : PS2_ModelFindOrLoad loader reg name 0 with
    | mk res reg2 =>
      have h2 : seqInv reg2 := by
        have hfl := seqInv_findOrLoad loader reg name 0 h
        rw [hr] at hfl
        exact hfl
      cases res <;> exact h2
  | some j =>
    dsimp only
    cases hr : PS2_ModelFindOrLoad loader (PS2_ModelFree reg j) name 0 with
    | mk res reg2 =>
      have h2 : seqInv reg2 := by
        have hfl := seqInv_findOrLoad loader (PS2_ModelFree reg j) name 0
          (seqInv_free reg j h)
        rw [hr] at hfl
        exact hfl
      cases res <;> exact h2

/-- The collection sweep preserves the sequence invariant. -/
theorem seqInv_sweep (reg : ModelRegistry) (h : seqInv reg) :
    seqInv (PS2_ModelSweep reg) := by
  intro i m hm
  have hs := poolLive?_sweep reg.currentSequence reg.pool i
  have hm' : poolLive? (sweepPool reg.currentSequence reg.pool) i = some m := hm
  rw [hs] at hm'
  cases hp : poolLive? reg.pool i with
  | none => rw [hp] at hm'; cases hm'
  | some m0 =>
    rw [hp] at hm'
    by_cases hst : m0.registration_sequence < reg.currentSequence
    · simp [hst] at hm'
    · simp [hst] at hm'
      exact hm' ▸ h i m0 hp

/-- Every reachable registry state satisfies the sequence invariant. -/
theorem reachable_seqInv (loader : LoaderFn) (reg : ModelRegistry)
    (h : Reachable loader reg) : seqInv reg := by
  induction h with
  | init cap =>
    intro i m hm
    have hnone : poolLive? (List.replicate cap none) i = none := by
      unfold poolLive?
      rw [List.getElem?_replicate]
      split <;> rfl
    rw [show (PS2_ModelInit cap).pool = List.replicate cap none from rfl,
      hnone] at hm
    cases hm
  | @step op reg2 hreach ih =>
    cases op with
    | findOrLoad n f => exact seqInv_findOrLoad loader _ n f ih
    | loadWorld n => exact seqInv_loadWorld loader _ n ih
    | incSequence =>
      exact seqInvPool_mono reg2.currentSequence (reg2.currentSequence + 1)
        reg2.pool (by omega) ih
    | sweep => exact seqInv_sweep _ ih
    | free i => exact seqInv_free _ i ih

/-- Claim C2: in every reachable registry state every live model satisfies
`registration_sequence <= currentSequence`, and the collection sweep frees
exactly the live pool entries whose stamp is strictly below the current
sequence: stale entries are freed, freshly stamped entries survive
untouched, and free slots stay free. -/
theorem C2_sequence_invariant_and_sweep (loader : LoaderFn)
    (reg : ModelRegistry) (h : Reachable loader reg) :
    (∀ i m, liveAt? reg i = some m →
      m.registration_sequence ≤ reg.currentSequence) ∧
    (∀ i m, liveAt? reg i = some m →
      (liveAt? (PS2_ModelSweep reg) i = none ↔
        m.registration_sequence < reg.currentSequence) ∧
      (reg.currentSequence ≤ m.registration_sequence →
        liveAt? (PS2_ModelSweep reg) i = some m)) ∧
    (∀ i, liveAt? reg i = none → liveAt? (PS2_ModelSweep reg) i = none) := by
  have hsw : ∀ i : Nat, liveAt? (PS2_ModelSweep reg) i =
      (liveAt? reg i).bind
        (fun m => if m.registration_sequence < reg.currentSequence
          then none else some m) := by
    intro i
    exact poolLive?_sweep reg.currentSequence reg.pool i
  refine ⟨reachable_seqInv loader reg h, ?_, ?_⟩
  · intro i m hm
    rw [hsw i, hm]
    by_cases hst : m.registration_sequence < reg.currentSequence
    · constructor
      · exact ⟨fun _ => hst, fun _ => by simp [hst]⟩
      · intro hge
        exact absurd hst (not_lt.mpr hge)
    · constructor
      · exact ⟨fun hnone => by simp [hst] at hnone, fun hlt => absurd hlt hst⟩
      · intro _
        simp [hst]
  · intro i hm
    rw [hsw i, hm]
    rfl

/-- Witness for C2 at a concrete reachable state: a four-slot registry
with one freshly resolved model. -/
theorem C2_witness :
    (∀ i m, liveAt? regW2 i = some m →
      m.registration_sequence ≤ regW2.currentSequence) ∧
    (∀ i m, liveAt? regW2 i = some m →
      (liveAt? (PS2_ModelSweep regW2) i = none ↔
        m.registration_sequence < regW2.currentSequence) ∧
      (regW2.currentSequence ≤ m.registration_sequence →
        liveAt? (PS2_ModelSweep regW2) i = some m)) ∧
    (∀ i, liveAt? regW2 i = none → liveAt? (PS2_ModelSweep regW2) i = none) :=
  C2_sequence_invariant_and_sweep loaderW regW2
    (Reachable.step (RegistryOp.findOrLoad "x" 0) (Reachable.init 4))

/-- A live read pins down the underlying pool entry. -/
theorem poolLive?_eq_some (pool : List (Option ps2_model_t)) (i : Nat)
    (m : ps2_model_t) (h : poolLive? pool i = some m) :
    pool[i]? = some (some m) := by
  unfold poolLive? at h
  cases hp : pool[i]? with
  | none => rw [hp] at h; cases h
  | some s =>
    rw [hp] at h
    cases s with
    | none => cases h
    | some m0 =>
      have hm : m0 = m := by simpa using h
      rw [hm]

/-- Claim C3: `PS2_ModelLoadWorld` enforces the world singleton: after
successfully loading world B while world A was live in slot `j`, no live
pool entry carries A's name any more (A's instance is gone), A's former
slot is reusable (free, or already reused for B), and the registry's one
shared world handle designates the new world's slot. -/
theorem C3_loadWorld_singleton (loader : LoaderFn) (reg : ModelRegistry)
    (nameB : String) (j i : Nat) (mA : ps2_model_t) (reg2 : ModelRegistry)
    (hworld : reg.world = some j)
    (hA : liveAt? reg j = some mA)
    (hrun : PS2_ModelLoadWorld loader reg nameB = (.ok i, reg2))
    (hname : mA.name ≠ nameB)
    (huniq : ∀ k m, liveAt? reg k = some m → m.name = mA.name → k = j) :
    reg2.world = some i ∧
    (∀ k m, liveAt? reg2 k = some m → m.name ≠ mA.name) ∧
    (liveAt? reg2 j = none ∨
      ∃ mB, liveAt? reg2 j = some mB ∧ mB.name = nameB) := by
  have hjlen : j < reg.pool.length := by
    obtain ⟨hlt, -⟩ :=
      List.getElem?_eq_some_iff.mp (poolLive?_eq_some reg.pool j mA hA)
    exact hlt
  unfold PS2_ModelLoadWorld at hrun
  rw [hworld] at hrun
  dsimp only at hrun
  cases hfl : PS2_ModelFindOrLoad loader (PS2_ModelFree reg j) nameB 0 with
  | mk res reg3 =>
    rw [hfl] at hrun
    cases res with
    | error e => simp at hrun
    | ok i0 =>
      dsimp only at hrun
      injection hrun with h1 h2
      injection h1 with h1
      subst h1
      subst h2
      obtain ⟨mi, rfl, hn, -, -, hlt, -, -⟩ :=
        findOrLoad_ok_spec loader (PS2_ModelFree reg j) nameB 0 i0 reg3 hfl
      have hlive : ∀ k : Nat,
          liveAt? { setSlot (PS2_ModelFree reg j) i0 (some mi) with
            world := some i0 } k =
          poolLive? ((reg.pool.set j none).set i0 (some mi)) k := fun k => rfl
      have hfree : (PS2_ModelFree reg j).pool = reg.pool.set j none := rfl
      refine ⟨rfl, ?_, ?_⟩
      · intro k m hk
        rw [hlive k] at hk
        by_cases hki : i0 = k
        · subst hki
          rw [poolLive?_set_self _ _ _ (by simpa [PS2_ModelFree, setSlot] using hlt)] at hk
          cases hk
          rw [hn]
          intro hba
          exact hname hba.symm
        · rw [poolLive?_set_ne _ _ _ _ hki] at hk
          by_cases hkj : j = k
          · subst hkj
            rw [poolLive?_set_self _ _ _ hjlen] at hk
            cases hk
          · rw [poolLive?_set_ne _ _ _ _ hkj] at hk
            intro hma
            exact hkj (huniq k m hk hma).symm
      · by_cases hji : i0 = j
        · subst hji
          right
          refine ⟨mi, ?_, hn⟩
          rw [hlive i0]
          rw [poolLive?_set_self _ _ _ (by simpa [PS2_ModelFree, setSlot] using hlt)]
        · left
          rw [hlive j]
          rw [poolLive?_set_ne _ _ _ _ hji]
          rw [poolLive?_set_self _ _ _ hjlen]

/-- Witness for C3 at a concrete input: loading world "b" over the live
world "a" returns a new singleton world handle, leaves no live instance of
"a", and reuses A's slot for B. -/
theorem C3_witness :
    regC2.world = some 0 ∧
    (∀ k m, liveAt? regC2 k = some m → m.name ≠ mW_a.name) ∧
    (liveAt? regC2 0 = none ∨
      ∃ mB, liveAt? regC2 0 = some mB ∧ mB.name = "b") :=
  C3_loadWorld_singleton loaderW regCW "b" 0 0 mW_a regC2 rfl rfl rfl
    (by decide)
    (by
      intro k m hk hn
      match k with
      | 0 => rfl
      | 1 =>
        rw [show liveAt? regCW 1 = none from rfl] at hk
        cases hk
      | k + 2 =>
        have hp : regCW.pool = [some mW_a, none] := rfl
        have hnone : liveAt? regCW (k + 2) = none := by
          unfold liveAt? poolLive?
          rw [hp, List.getElem?_eq_none (by simp)]
          rfl
        rw [hnone] at hk
        cases hk)

/-- Writing one slot preserves the type-tag invariant as long as the
written model (if any) carries a valid variant. -/
theorem typeInvPool_set (pool : List (Option ps2_model_t)) (i : Nat)
    (s : Option ps2_model_t)
    (h : typeInvPool pool)
    (hs : ∀ m, s = some m →
      m.type = MDL_BRUSH ∨ m.type = MDL_SPRITE ∨ m.type = MDL_ENTITY) :
    typeInvPool (pool.set i s) := by
  intro j m' hj
  by_cases hij : i = j
  · subst hij
    by_cases hlen : i < pool.length
    · rw [poolLive?_set_self pool i s hlen] at hj
      cases s with
      | none => cases hj
      | some m =>
        cases hj
        exact hs _ rfl
    · rw [List.set_eq_of_length_le (Nat.le_of_not_lt hlen)] at hj
      exact h i m' hj
  · rw [poolLive?_set_ne pool i j s hij] at hj
    exact h j m' hj

/-- `PS2_ModelFindOrLoad` preserves the type-tag invariant whenever the
loader honours its contract: on a hit the restamped instance keeps its
type, on a miss the committed aggregate's type comes from the loader. -/
theorem typeInv_findOrLoad (loader : LoaderFn) (hL : LoaderTypesOK loader)
    (reg : ModelRegistry) (name : String) (flags : Int) (h : typeInv reg) :
    typeInv (PS2_ModelFindOrLoad loader reg name flags).2 := by
  cases hr : PS2_ModelFindOrLoad loader reg name flags with
  | mk res reg2 =>
    cases res with
    | ok i =>
      obtain ⟨mi, rfl, -, -, -, -, -, hprov⟩ :=
        findOrLoad_ok_spec loader reg name flags i reg2 hr
      refine typeInvPool_set reg.pool i (some mi) h ?_
      intro m hm
      cases hm
      cases hprov with
      | inl hp =>
        obtain ⟨m0, hm0, rfl⟩ := hp
        simpa [stampModel] using h i m0 hm0
      | inr hp =>
        obtain ⟨asset, hld, rfl⟩ := hp
        simpa [commitModel] using hL name flags asset hld
    | error e =>
      rw [findOrLoad_error_state loader reg name flags e reg2 hr]
      exact h

/-- `PS2_ModelFree` preserves the type-tag invariant. -/
theorem typeInv_free (reg : ModelRegistry) (i : Nat) (h : typeInv reg) :
    typeInv (PS2_ModelFree reg i) :=
  typeInvPool_set reg.pool i none h (fun m hm => by cases hm)

/-- `PS2_ModelLoadWorld` preserves the type-tag invariant whenever the
loader honours its contract. -/
theorem typeInv_loadWorld (loader : LoaderFn) (hL : LoaderTypesOK loader)
    (reg : ModelRegistry) (name : String) (h : typeInv reg) :
    typeInv (PS2_ModelLoadWorld loader reg name).2 := by
  unfold PS2_ModelLoadWorld
  cases hw : reg.world with
  | none =>
    dsimp only
    cases hr : PS2_ModelFindOrLoad loader reg name 0 with
    | mk res reg2 =>
      have h2 : typeInv reg2 := by
        have hfl := typeInv_findOrLoad loader hL reg name 0 h
        rw [hr] at hfl
        exact hfl
      cases res <;> exact h2
  | some j =>
    dsimp only
    cases hr : PS2_ModelFindOrLoad loader (PS2_ModelFree reg j) name 0 with
    | mk res reg2 =>
      have h2 : typeInv reg2 := by
        have hfl := typeInv_findOrLoad loader hL (PS2_ModelFree reg j) name 0
          (typeInv_free reg j h)
        rw [hr] at hfl
        exact hfl
      cases res <;> exact h2

/-- The collection sweep preserves the type-tag invariant. -/
theorem typeInv_sweep (reg : ModelRegistry) (h : typeInv reg) :
    typeInv (PS2_ModelSweep reg) := by
  intro i m hm
  have hs := poolLive?_sweep reg.currentSequence reg.pool i
  have hm' : poolLive? (sweepPool reg.currentSequence reg.pool) i = some m := hm
  rw [hs] at hm'
  cases hp : poolLive? reg.pool i with
  | none => rw [hp] at hm'; cases hm'
  | some m0 =>
    rw [hp] at hm'
    by_cases hst : m0.registration_sequence < reg.currentSequence
    · simp [hst] at hm'
    · simp [hst] at hm'
      exact hm' ▸ h i m0 hp

/-- Every reachable registry state satisfies the type-tag invariant when
the loader honours its contract. -/
theorem reachable_typeInv (loader : LoaderFn) (hL : LoaderTypesOK loader)
    (reg : ModelRegistry) (h : Reachable loader reg) : typeInv reg := by
  induction h with
  | init cap =>
    intro i m hm
    have hnone : poolLive? (List.replicate cap none) i = none := by
      unfold poolLive?
      rw [List.getElem?_replicate]
      split <;> rfl
    rw [show (PS2_ModelInit cap).pool = List.replicate cap none from rfl,
      hnone] at hm
    cases hm
  | @step op reg2 hreach ih =>
    cases op with
    | findOrLoad n f => exact typeInv_findOrLoad loader hL _ n f ih
    | loadWorld n => exact typeInv_loadWorld loader hL _ n ih
    | incSequence => exact ih
    | sweep => exact typeInv_sweep _ ih
    | free i => exact typeInv_free _ i ih

/-- Claim C10: in every reachable registry state, under the loader's
contract, the `type` field of every live model holds exactly one of the
three variants `MDL_BRUSH`, `MDL_SPRITE`, `MDL_ENTITY`: it is never zero
and never the bitwise-or of two distinct variant flags, even though the
enum values are declared as distinct bit flags. -/
theorem C10_model_type_variant (loader : LoaderFn) (reg : ModelRegistry)
    (i : Nat) (m : ps2_model_t)
    (hL : LoaderTypesOK loader) (h : Reachable loader reg)
    (hm : liveAt? reg i = some m) :
    (m.type = MDL_BRUSH ∨ m.type = MDL_SPRITE ∨ m.type = MDL_ENTITY) ∧
    m.type ≠ 0 ∧
    (∀ a b : Nat,
      (a = MDL_BRUSH ∨ a = MDL_SPRITE ∨ a = MDL_ENTITY) →
      (b = MDL_BRUSH ∨ b = MDL_SPRITE ∨ b = MDL_ENTITY) →
      a ≠ b → m.type ≠ a ||| b) := by
  have hv := reachable_typeInv loader hL reg h i m hm
  refine ⟨hv, ?_, ?_⟩
  · rcases hv with hv | hv | hv <;> rw [hv] <;> decide
  · intro a b ha hb hab
    rcases hv with hv | hv | hv <;> rw [hv] <;>
      rcases ha with rfl | rfl | rfl <;>
      rcases hb with rfl | rfl | rfl <;>
      first
        | exact absurd rfl hab
        | decide

/-- Witness for C10 at a concrete input: the model live in slot 0 of the
reachable state `regW2` carries exactly the `MDL_BRUSH` variant. -/
theorem C10_witness :
    (mW_x.type = MDL_BRUSH ∨ mW_x.type = MDL_SPRITE ∨ mW_x.type = MDL_ENTITY) ∧
    mW_x.type ≠ 0 ∧
    (∀ a b : Nat,
      (a = MDL_BRUSH ∨ a = MDL_SPRITE ∨ a = MDL_ENTITY) →
      (b = MDL_BRUSH ∨ b = MDL_SPRITE ∨ b = MDL_ENTITY) →
      a ≠ b → mW_x.type ≠ a ||| b) :=
  C10_model_type_variant loaderW regW2 0 mW_x
    (fun n f m hm => by cases hm; exact Or.inl rfl)
    (Reachable.step (RegistryOp.findOrLoad "x" 0) (Reachable.init 4))
    rfl

/-- In a tree passing the tag-discipline walk, every vertex satisfies the
tag discipline: nodes carry the `-1` sentinel, leafs a real negative
content mask distinct from it. -/
theorem tagDiscipline_subvertices (t : SpatialVertex)
    (h : tagDisciplineCheck t = true) :
    ∀ v ∈ t.subvertices,
      (v.isNode = true → v.contents = -1) ∧
      (v.isNode = false → v.contents < 0 ∧ v.contents ≠ -1) := by
  induction t with
  | node c vf mm p f b fs ns ihf ihb =>
    simp only [tagDisciplineCheck, Bool.and_eq_true, decide_eq_true_eq] at h
    obtain ⟨⟨hc, hf⟩, hb⟩ := h
    intro v hv
    simp only [SpatialVertex.subvertices, List.mem_cons, List.mem_append] at hv
    rcases hv with rfl | hv | hv
    · refine ⟨fun _ => hc, fun hfalse => ?_⟩
      simp [SpatialVertex.isNode] at hfalse
    · exact ihf hf v hv
    · exact ihb hb v hv
  | leaf c vf mm cl ar fm nm =>
    simp only [tagDisciplineCheck, Bool.and_eq_true, decide_eq_true_eq] at h
    obtain ⟨hneg, hne⟩ := h
    intro v hv
    simp only [SpatialVertex.subvertices, List.mem_singleton] at hv
    subst hv
    refine ⟨fun htrue => ?_, fun _ => ⟨hneg, hne⟩⟩
    simp [SpatialVertex.isNode] at htrue

/-- Claim C5: in a BSP tree passing the tag-discipline walk, a vertex's
`contents` is the `-1` sentinel exactly when it is an internal node; the
leaf-only fields `cluster`/`area` are never readable through a vertex with
`contents == -1`; every leaf holds a real negative content mask; and
`children[0]`/`children[1]` are the front/back children, with point
traversal descending into `children[0]` exactly on the front side of the
node's plane. -/
theorem C5_bsp_tag_discipline (t : SpatialVertex)
    (h : tagDisciplineCheck t = true) :
    (∀ v ∈ t.subvertices, (v.contents = -1 ↔ v.isNode = true)) ∧
    (∀ v ∈ t.subvertices, v.contents = -1 →
      v.readCluster = none ∧ v.readArea = none) ∧
    (∀ v ∈ t.subvertices, v.isNode = false →
      v.contents < 0 ∧ v.contents ≠ -1) ∧
    (∀ (c vf : Int) (mm : List Rat) (p : cplane_t) (f b : SpatialVertex)
        (fs ns : Nat) (pt : vec3_t),
      ((SpatialVertex.node c vf mm p f b fs ns).child 0 = some f ∧
       (SpatialVertex.node c vf mm p f b fs ns).child 1 = some b) ∧
      (0 ≤ signedDist p pt →
        traverseStep (SpatialVertex.node c vf mm p f b fs ns) pt =
          (SpatialVertex.node c vf mm p f b fs ns).child 0) ∧
      (signedDist p pt < 0 →
        traverseStep (SpatialVertex.node c vf mm p f b fs ns) pt =
          (SpatialVertex.node c vf mm p f b fs ns).child 1)) := by
  have hsub := tagDiscipline_subvertices t h
  refine ⟨?_, ?_, ?_, ?_⟩
  · intro v hv
    obtain ⟨h1, h2⟩ := hsub v hv
    constructor
    · intro hc
      cases hbn : v.isNode with
      | true => rfl
      | false => exact absurd hc (h2 hbn).2
    · exact h1
  · intro v hv hc
    cases v with
    | node c2 vf mm p f b fs ns => exact ⟨rfl, rfl⟩
    | leaf c2 vf mm cl ar fm nm =>
      obtain ⟨-, h2⟩ := hsub _ hv
      exact absurd hc (h2 rfl).2
  · intro v hv
    exact (hsub v hv).2
  · intro c vf mm p f b fs ns pt
    refine ⟨⟨rfl, rfl⟩, ?_, ?_⟩
    · intro hge
      simp [traverseStep, SpatialVertex.child, hge]
    · intro hlt
      simp [traverseStep, SpatialVertex.child, not_le.mpr hlt]

/-- Witness for C5 at a concrete input: the fixture tree of one node over
two leaves passes the walk and satisfies the tag discipline. -/
theorem C5_witness :
    (∀ v ∈ treeW.subvertices, (v.contents = -1 ↔ v.isNode = true)) ∧
    (∀ v ∈ treeW.subvertices, v.contents = -1 →
      v.readCluster = none ∧ v.readArea = none) ∧
    (∀ v ∈ treeW.subvertices, v.isNode = false →
      v.contents < 0 ∧ v.contents ≠ -1) ∧
    (∀ (c vf : Int) (mm : List Rat) (p : cplane_t) (f b : SpatialVertex)
        (fs ns : Nat) (pt : vec3_t),
      ((SpatialVertex.node c vf mm p f b fs ns).child 0 = some f ∧
       (SpatialVertex.node c vf mm p f b fs ns).child 1 = some b) ∧
      (0 ≤ signedDist p pt →
        traverseStep (SpatialVertex.node c vf mm p f b fs ns) pt =
          (SpatialVertex.node c vf mm p f b fs ns).child 0) ∧
      (signedDist p pt < 0 →
        traverseStep (SpatialVertex.node c vf mm p f b fs ns) pt =
          (SpatialVertex.node c vf mm p f b fs ns).child 1)) :=
  C5_bsp_tag_discipline treeW (by decide)

/-- Claim C6: in a structurally well-formed model every surface's edge
range `[first_edge, first_edge + num_edges)` lies within
`[0, num_surf_edges)`, and consequently every surf-edge lookup performed
while resolving the surface is in bounds (returns a value). -/
theorem C6_surface_edge_range (m : ps2_model_t) (s : ps2_mdl_surface_t)
    (hwf : modelWellFormed m = true) (hs : s ∈ m.surfaces) :
    (0 ≤ s.first_edge ∧ 0 ≤ s.num_edges ∧
      s.first_edge + s.num_edges ≤ m.num_surf_edges) ∧
    (∀ k : Nat, k < s.num_edges.toNat →
      (surfEdgeLookup m (s.first_edge + (k : Int))).isSome = true) := by
  have hrefs : surfaceRefsOK m s = true := by
    unfold modelWellFormed at hwf
    exact List.all_eq_true.mp hwf s hs
  unfold surfaceRefsOK at hrefs
  simp only [Bool.and_eq_true, decide_eq_true_eq] at hrefs
  obtain ⟨⟨hrange, -⟩, hallb⟩ := hrefs
  unfold surfaceEdgeRangeOK at hrange
  simp only [Bool.and_eq_true, decide_eq_true_eq] at hrange
  obtain ⟨⟨hfe, hne⟩, hub⟩ := hrange
  refine ⟨⟨hfe, hne, hub⟩, ?_⟩
  intro k hk
  have hmem : k ∈ List.range s.num_edges.toNat := List.mem_range.mpr hk
  have hkb := List.all_eq_true.mp hallb k hmem
  cases hl : surfEdgeLookup m (s.first_edge + (k : Int)) with
  | none =>
    rw [hl] at hkb
    exact Bool.noConfusion hkb
  | some lx => rfl

/-- Witness for C6 at a concrete input: the fixture model's one surface
has its whole edge range in bounds and every lookup succeeds. -/
theorem C6_witness :
    (0 ≤ surfW.first_edge ∧ 0 ≤ surfW.num_edges ∧
      surfW.first_edge + surfW.num_edges ≤ modelW.num_surf_edges) ∧
    (∀ k : Nat, k < surfW.num_edges.toNat →
      (surfEdgeLookup modelW (surfW.first_edge + (k : Int))).isSome = true) :=
  C6_surface_edge_range modelW surfW (by decide) (by decide)

/-- The polygon-building loop succeeds, produces exactly `n` vertices, and
selects each vertex's position through the sign of the corresponding
surf-edge entry (negative entry: the edge is walked backwards, starting at
`v1`; otherwise forwards, starting at `v0`). -/
theorem buildVertsAux_spec (m : ps2_model_t) (ti : ps2_mdl_texinfo_t)
    (s : ps2_mdl_surface_t) (n : Nat) (pos : Int)
    (hall : ∀ k : Nat, k < n → ∃ lindex : Int,
      surfEdgeLookup m (pos + (k : Int)) = some lindex ∧
      surfEdgeEntryOK m lindex = true) :
    ∃ vs, buildVertsAux m ti s n pos = some vs ∧ vs.length = n ∧
      ∀ k : Nat, k < n → ∃ (lindex : Int) (e : ps2_mdl_edge_t),
        surfEdgeLookup m (pos + (k : Int)) = some lindex ∧
        m.edges[lindex.natAbs]? = some e ∧
        (vs[k]?).map ps2_poly_vert_t.pos =
          (m.vertexes[if lindex < 0 then e.v1 else e.v0]?).map
            ps2_mdl_vertex_t.position := by
  induction n generalizing pos with
  | zero =>
    exact ⟨[], rfl, rfl, fun k hk => absurd hk (Nat.not_lt_zero k)⟩
  | succ n ih =>
    obtain ⟨l0, hl0, he0⟩ := hall 0 (Nat.succ_pos n)
    rw [show pos + ((0 : Nat) : Int) = pos by simp] at hl0
    unfold surfEdgeEntryOK at he0
    cases he : m.edges[l0.natAbs]? with
    | none =>
      rw [he] at he0
      exact Bool.noConfusion he0
    | some e =>
      rw [he] at he0
      simp only [Bool.and_eq_true, decide_eq_true_eq] at he0
      obtain ⟨hv0, hv1⟩ := he0
      have hvert : ∃ vert,
          m.vertexes[if l0 < 0 then e.v1 else e.v0]? = some vert := by
        by_cases hneg : l0 < 0
        · rw [if_pos hneg]
          exact ⟨_, List.getElem?_eq_getElem hv1⟩
        · rw [if_neg hneg]
          exact ⟨_, List.getElem?_eq_getElem hv0⟩
      obtain ⟨vert, hvert⟩ := hvert
      have hbpv : ∃ v, buildPolyVert m ti s l0 = some v ∧
          v.pos = vert.position := by
        unfold buildPolyVert edgeStartVertexIndex
        by_cases hneg : l0 < 0
        · have htn : (-l0).toNat = l0.natAbs := by omega
          rw [if_pos hneg, htn, he]
          rw [if_pos hneg] at hvert
          simp only [Option.map_some']
          rw [hvert]
          exact ⟨_, rfl, rfl⟩
        · have htn : l0.toNat = l0.natAbs := by omega
          rw [if_neg hneg, htn, he]
          rw [if_neg hneg] at hvert
          simp only [Option.map_some']
          rw [hvert]
          exact ⟨_, rfl, rfl⟩
      obtain ⟨v, hbpv, hvpos⟩ := hbpv
      have hall2 : ∀ k : Nat, k < n → ∃ lindex : Int,
          surfEdgeLookup m ((pos + 1) + (k : Int)) = some lindex ∧
          surfEdgeEntryOK m lindex = true := by
        intro k hk
        have hsh := hall (k + 1) (Nat.succ_lt_succ hk)
        rwa [show pos + ((k + 1 : Nat) : Int) = (pos + 1) + (k : Int) by
          push_cast; ring] at hsh
      obtain ⟨vs, hvs, hlen, hidx⟩ := ih (pos + 1) hall2
      refine ⟨v :: vs, ?_, by simp [hlen], ?_⟩
      · unfold buildVertsAux
        rw [hl0]
        dsimp only
        rw [hbpv]
        dsimp only
        rw [hvs]
        rfl
      · intro k hk
        cases k with
        | zero =>
          refine ⟨l0, e, by simpa using hl0, he, ?_⟩
          simp [hvpos, hvert]
        | succ k2 =>
          obtain ⟨lx, ex, hlx, hex, hvx⟩ := hidx k2 (Nat.lt_of_succ_lt_succ hk)
          refine ⟨lx, ex, ?_, hex, ?_⟩
          · rwa [show (pos + 1) + (k2 : Int) = pos + ((k2 + 1 : Nat) : Int) by
              push_cast; ring] at hlx
          · simpa using hvx

/-- Claim C7: for a surface whose references are in bounds, building the
polygon from its edge range succeeds, the polygon's `num_verts` equals the
surface's `num_edges`, and each vertex position is selected by the sign of
its surf-edge entry (negative entries walk the edge reversed, starting at
`v1`, nonnegative entries walk it forwards, starting at `v0`). -/
theorem C7_polygon_from_surface (m : ps2_model_t) (s : ps2_mdl_surface_t)
    (h : surfaceRefsOK m s = true) :
    ∃ poly, PS2_BuildPolygonFromSurface m s = some poly ∧
      poly.num_verts = s.num_edges ∧
      (poly.verts.length : Int) = s.num_edges ∧
      ∀ k : Nat, k < poly.verts.length →
        ∃ (lindex : Int) (e : ps2_mdl_edge_t),
          surfEdgeLookup m (s.first_edge + (k : Int)) = some lindex ∧
          m.edges[lindex.natAbs]? = some e ∧
          (poly.verts[k]?).map ps2_poly_vert_t.pos =
            (m.vertexes[if lindex < 0 then e.v1 else e.v0]?).map
              ps2_mdl_vertex_t.position := by
  unfold surfaceRefsOK at h
  simp only [Bool.and_eq_true, decide_eq_true_eq] at h
  obtain ⟨⟨hrange, htex⟩, hallb⟩ := h
  unfold surfaceEdgeRangeOK at hrange
  simp only [Bool.and_eq_true, decide_eq_true_eq] at hrange
  obtain ⟨⟨hfe, hne⟩, -⟩ := hrange
  obtain ⟨ti, hti⟩ : ∃ ti, m.texinfos[s.texinfo]? = some ti :=
    ⟨_, List.getElem?_eq_getElem htex⟩
  have hall : ∀ k : Nat, k < s.num_edges.toNat → ∃ lindex : Int,
      surfEdgeLookup m (s.first_edge + (k : Int)) = some lindex ∧
      surfEdgeEntryOK m lindex = true := by
    intro k hk
    have hkb := List.all_eq_true.mp hallb k (List.mem_range.mpr hk)
    cases hl : surfEdgeLookup m (s.first_edge + (k : Int)) with
    | none =>
      rw [hl] at hkb
      exact Bool.noConfusion hkb
    | some lx =>
      rw [hl] at hkb
      exact ⟨lx, rfl, hkb⟩
  obtain ⟨vs, hvs, hlen, hidx⟩ :=
    buildVertsAux_spec m ti s s.num_edges.toNat s.first_edge hall
  refine ⟨{ next := none, chain := none, flags := s.flags,
            num_verts := (vs.length : Int), verts := vs }, ?_, ?_, ?_, ?_⟩
  · unfold PS2_BuildPolygonFromSurface
    rw [hti]
    dsimp only
    rw [hvs]
  · dsimp only
    rw [hlen]
    omega
  · dsimp only
    rw [hlen]
    omega
  · intro k hk
    dsimp only at hk ⊢
    rw [hlen] at hk
    exact hidx k hk

/-- Witness for C7 at a concrete input: the fixture surface builds into a
polygon of exactly one vertex, selected forwards from edge 0. -/
theorem C7_witness :
    ∃ poly, PS2_BuildPolygonFromSurface modelW surfW = some poly ∧
      poly.num_verts = surfW.num_edges ∧
      (poly.verts.length : Int) = surfW.num_edges ∧
      ∀ k : Nat, k < poly.verts.length →
        ∃ (lindex : Int) (e : ps2_mdl_edge_t),
          surfEdgeLookup modelW (surfW.first_edge + (k : Int)) = some lindex ∧
          modelW.edges[lindex.natAbs]? = some e ∧
          (poly.verts[k]?).map ps2_poly_vert_t.pos =
            (modelW.vertexes[if lindex < 0 then e.v1 else e.v0]?).map
              ps2_mdl_vertex_t.position :=
  C7_polygon_from_surface modelW surfW (by decide)
